import Mathlib

/-!
Shallow embedding of the `elfo` ELF parsing library
(`src/elfo/__init__.py` and `src/elfo/_util.py`) together with proofs about
its specified behaviour.

Modelling conventions:
* Python `bytes` values are `List Nat` whose elements are `< 256`.
* A raw file object is consumed front to back: `fd.read(n)` becomes
  `take n` / `drop n` on the remaining byte list, `fd.read()` returns the rest.
* `struct.unpack` and `struct.pack` are modelled for the format strings the
  library actually builds (`BBBBB`, endianness-prefixed `HHI…`, and the bare
  `IIIIIIII` / `IIQQQQQQ` of the program header).  A format without a byte
  order character uses the host byte order, which is therefore an explicit
  parameter.  For these particular strings CPython inserts no alignment
  padding, so none is modelled.
* Python exceptions become `Except ElfError`; each `raise` site gets its own
  constructor.  `struct.error` is `structError`, a failing `assert` is
  `assertionError`.
* Python ints are `Nat`.  `struct.pack` is totalised with `% 256 ^ k`
  truncation; CPython raises for out-of-range values, but every value the
  library packs was produced by a previous unpack and is in range, where the
  two behaviours agree.
-/

deriving instance DecidableEq for Except

inductive ByteOrder
  | little
  | big
deriving DecidableEq, Repr

abbrev Bytes := List Nat

/-- struct format characters used by the library: `B`, `H`, `I`, `Q`. -/
inductive Tok
  | B
  | H
  | I
  | Q
deriving DecidableEq, Repr

def Tok.size : Tok → Nat
  | .B => 1
  | .H => 2
  | .I => 4
  | .Q => 8

/-- A struct format string: optional byte-order character plus field tokens.
`order = none` is a bare format, interpreted in the host byte order. -/
structure Fmt where
  order : Option ByteOrder
  toks : List Tok
deriving DecidableEq, Repr

/-- `struct.calcsize` for the formats of this library (no alignment padding
arises for them). -/
def calcsize (f : Fmt) : Nat := (f.toks.map Tok.size).sum

def Fmt.effOrder (host : ByteOrder) (f : Fmt) : ByteOrder := f.order.getD host

def bytesToNatLE : Bytes → Nat
  | [] => 0
  | b :: bs => b + 256 * bytesToNatLE bs

def bytesToNat : ByteOrder → Bytes → Nat
  | .little, bs => bytesToNatLE bs
  | .big, bs => bytesToNatLE bs.reverse

def natToBytesLE : Nat → Nat → Bytes
  | 0, _ => []
  | n + 1, v => v % 256 :: natToBytesLE n (v / 256)

def natToBytes : ByteOrder → Nat → Nat → Bytes
  | .little, n, v => natToBytesLE n v
  | .big, n, v => (natToBytesLE n v).reverse

/-- Decode a byte buffer against a token list (the buffer length was already
checked against `calcsize`). -/
def unpackGo (bo : ByteOrder) : List Tok → Bytes → List Nat
  | [], _ => []
  | t :: ts, bs => bytesToNat bo (bs.take t.size) :: unpackGo bo ts (bs.drop t.size)

def packGo (bo : ByteOrder) : List Tok → List Nat → Bytes
  | t :: ts, v :: vs => natToBytes bo t.size v ++ packGo bo ts vs
  | _, _ => []

inductive ElfError
  | notAnELF
  | unknownValue (kind : String) (value : Nat)
  | unknownEndianess (value : Nat)
  | unknownClass (value : Nat)
  | invalidEhsize (got expected : Nat)
  | invalidShentsize (got expected : Nat)
  | structError
  | assertionError
  | badArgCount
deriving DecidableEq, Repr

/-- `struct.unpack(fmt, data)`: requires the exact byte count, else raises
`struct.error`. -/
def structUnpack (host : ByteOrder) (f : Fmt) (data : Bytes) : Except ElfError (List Nat) :=
  if data.length = calcsize f then .ok (unpackGo (f.effOrder host) f.toks data)
  else .error .structError

/-- `struct.pack(fmt, *vals)` (totalised with `% 256 ^ k` truncation). -/
def structPack (host : ByteOrder) (f : Fmt) (vals : List Nat) : Bytes :=
  packGo (f.effOrder host) f.toks vals

/-- `elfo._unpack(description, fd)`: read `calcsize` bytes, `assert data`,
then `struct.unpack`.  Returns the values and the rest of the stream. -/
def unpackStream (host : ByteOrder) (f : Fmt) (bs : Bytes) : Except ElfError (List Nat × Bytes) :=
  if (bs.take (calcsize f)).length = 0 then .error .assertionError
  else
    match structUnpack host f (bs.take (calcsize f)) with
    | .error e => .error e
    | .ok vals => .ok (vals, bs.drop (calcsize f))

/-- Resolve one endpoint of a Python slice `data[a:b]`: negative indices count
from the end (clamped at 0), non-negative ones are clamped at the length. -/
def pySliceIdx (len : Nat) (i : Int) : Nat :=
  if i < 0 then ((len : Int) + i).toNat else min i.toNat len

/-- Python slice `data[a:b]` with possibly negative endpoints. -/
def pySlice (data : Bytes) (a b : Int) : Bytes :=
  (data.drop (pySliceIdx data.length a)).take
    (pySliceIdx data.length b - pySliceIdx data.length a)

/-- Python slice `data[a:b]` for non-negative endpoints `a ≤ b`, as used with
the record-index slices of `multiple_from_bytes`. -/
def pySliceNat (data : Bytes) (a b : Nat) : Bytes := (data.drop a).take (b - a)

/-! ## The symbolic value system of `elfo._util`

`_EnumItem` is an `int` subclass that keeps a symbolic `name`; `_EnumFlagItem`
additionally overrides `__eq__` with `bool(self & other)`.  `_FlagMatch` is an
`int` subclass that carries the list of known flags of its kind.  An `_Enum`
class is a table of named items together with an item class tag. -/

structure EnumItem where
  name : String
  val : Nat
deriving DecidableEq, Repr

inductive ItemCls
  | plain
  | flag
deriving DecidableEq, Repr

structure EnumKind where
  name : String
  itemCls : ItemCls
  items : List EnumItem
deriving DecidableEq, Repr

/-- Result of `_Enum.from_value`: a plain named item, or a `_FlagMatch`
carrying the raw value and the known flags of the kind. -/
inductive Resolved
  | item (i : EnumItem)
  | flagMatch (value : Nat) (flags : List EnumItem)
deriving DecidableEq, Repr

/-- The underlying integer of a resolved value (both `_EnumItem` and
`_FlagMatch` are `int` subclasses). -/
def Resolved.toNat : Resolved → Nat
  | .item i => i.val
  | .flagMatch v _ => v

/-- `_EnumItem.__eq__` (inherited from `int`): numeric equality. -/
def enumItemEqInt (i : EnumItem) (n : Nat) : Bool := i.val == n

/-- `hash` of an `_EnumItem`: inherited from `int`; CPython has
`hash(n) = n` for the small non-negative ints occurring here. -/
def enumItemHash (i : EnumItem) : Option Nat := some i.val

/-- `_EnumFlagItem.__eq__(self, other) = bool(self & other)`: true iff the
bitwise intersection is non-zero. -/
def flagItemEq (flag other : Nat) : Bool := (flag &&& other) != 0

/-- `_EnumFlagItem` compared with a plain integer (uses its own `__eq__`). -/
def flagItemEqInt (i : EnumItem) (n : Nat) : Bool := flagItemEq i.val n

/-- `hash` of an `_EnumFlagItem`: the class defines `__eq__` without defining
`__hash__`, so Python sets `__hash__ = None` and the value is unhashable
(`hash(x)` raises `TypeError`). -/
def flagItemHash (_ : EnumItem) : Option Nat := none

/-- Comparison with the named flag constant on the left, as done by
`_FlagMatch._values` (`flag == self`): `_EnumFlagItem.__eq__` applies. -/
def flagMatchQuery (r : Resolved) (flag : EnumItem) : Bool :=
  flagItemEq flag.val r.toNat

/-- Comparison with the `_FlagMatch` value on the left (`self == flag`):
`_FlagMatch` does not override `__eq__`, so `int.__eq__` applies and the
comparison is plain numeric equality. -/
def flagMatchEqInt (r : Resolved) (n : Nat) : Bool := r.toNat == n

/-- `_Enum.from_value`: for a flag kind, always build a `_FlagMatch` over the
known flags; for a plain kind, scan the table for a numerically equal item and
raise `ValueError` when none matches. -/
def EnumKind.fromValue (k : EnumKind) (v : Nat) : Except ElfError Resolved :=
  match k.itemCls with
  | .flag => .ok (.flagMatch v k.items)
  | .plain =>
    match k.items.find? (fun i => i.val == v) with
    | some i => .ok (.item i)
    | none => .error (.unknownValue k.name v)

inductive FallbackResult
  | resolved (r : Resolved)
  | raw (v : Nat)
deriving DecidableEq, Repr

def FallbackResult.toNat : FallbackResult → Nat
  | .resolved r => r.toNat
  | .raw v => v

/-- `_Enum.from_value_fallback`: like `from_value` but returns the raw value
when the lookup raises `ValueError`. -/
def EnumKind.fromValueFallback (k : EnumKind) (v : Nat) : FallbackResult :=
  match k.fromValue v with
  | .ok r => .resolved r
  | .error _ => .raw v

/-! ## Constant tables

Modelled from the spec: the module `elfo._data` with the constant tables is
not part of the sources; the spec describes the identification block layout
(`magic(4) class(1) encoding(1) version(1) osabi(1) abiversion(1)
pad(9→to 16)`), the class and encoding enumerations, and that type/machine/
version tables are external.  Values follow the standard ELF codes the spec
presupposes. -/

/-- Modelled from the spec: `EI.NIDENT`, total identification block length. -/
def EI_NIDENT : Nat := 16

/-- Modelled from the spec: `EI.PAD`, index where the identification padding
starts (`pad(9→to 16)` in the spec layout table). -/
def EI_PAD : Nat := 9

def ELFCLASS_NONE : EnumItem := ⟨"ELFCLASS.NONE", 0⟩
def ELFCLASS_32 : EnumItem := ⟨"ELFCLASS._32", 1⟩
def ELFCLASS_64 : EnumItem := ⟨"ELFCLASS._64", 2⟩

/-- Modelled from the spec: the file class enumeration (32-bit / 64-bit). -/
def ELFCLASS : EnumKind := ⟨"ELFCLASS", .plain, [ELFCLASS_NONE, ELFCLASS_32, ELFCLASS_64]⟩

def ELFDATA_NONE : EnumItem := ⟨"ELFDATA.NONE", 0⟩
def ELFDATA_LSB : EnumItem := ⟨"ELFDATA.LSB", 1⟩
def ELFDATA_MSB : EnumItem := ⟨"ELFDATA.MSB", 2⟩

/-- Modelled from the spec: the data encoding enumeration (little / big). -/
def ELFDATA : EnumKind := ⟨"ELFDATA", .plain, [ELFDATA_NONE, ELFDATA_LSB, ELFDATA_MSB]⟩

/-- Modelled from the spec: OS/ABI identifiers (strict resolution). -/
def OSABI : EnumKind := ⟨"OSABI", .plain, [⟨"OSABI.NONE", 0⟩, ⟨"OSABI.LINUX", 3⟩]⟩

/-- Modelled from the spec: file type table (strict resolution). -/
def ET : EnumKind :=
  ⟨"ET", .plain,
    [⟨"ET.NONE", 0⟩, ⟨"ET.REL", 1⟩, ⟨"ET.EXEC", 2⟩, ⟨"ET.DYN", 3⟩, ⟨"ET.CORE", 4⟩]⟩

/-- Modelled from the spec: target machine table (strict resolution). -/
def EM : EnumKind := ⟨"EM", .plain, [⟨"EM.NONE", 0⟩, ⟨"EM.X86_64", 62⟩]⟩

/-- Modelled from the spec: format version table (fallback resolution). -/
def EV : EnumKind := ⟨"EV", .plain, [⟨"EV.NONE", 0⟩, ⟨"EV.CURRENT", 1⟩]⟩

/-- Modelled from the spec: section type table (fallback resolution). -/
def SHT : EnumKind :=
  ⟨"SHT", .plain,
    [⟨"SHT.NULL", 0⟩, ⟨"SHT.PROGBITS", 1⟩, ⟨"SHT.SYMTAB", 2⟩, ⟨"SHT.STRTAB", 3⟩]⟩

/-- Modelled from the spec: section flag table (flag kind; includes the
standard multi-bit mask groups the spec's bit-group queries refer to). -/
def SHF : EnumKind :=
  ⟨"SHF", .flag,
    [⟨"SHF.WRITE", 1⟩, ⟨"SHF.ALLOC", 2⟩, ⟨"SHF.EXECINSTR", 4⟩,
     ⟨"SHF.MASKOS", 0x0ff00000⟩, ⟨"SHF.MASKPROC", 0xf0000000⟩]⟩

/-! ## `ELFHeader.types.e_ident` -/

/-- `ELFHeader.types.e_ident`.  The `file_identification` field is the fixed
magic; the remaining fields are kept as the integers of their resolved items
(an `_EnumItem` compares and packs as its underlying integer).  The padding
is not stored, only skipped on decode and zero-filled on encode. -/
structure EIdent where
  file_class : Nat
  data_encoding : Nat
  file_version : Nat
  os_abi : Nat
  abi_version : Nat
deriving DecidableEq, Repr

def elfMagic : Bytes := [0x7f, 0x45, 0x4c, 0x46]

/-- Format `BBBBB` of the five single-byte identification fields. -/
def identFmt : Fmt := ⟨none, [.B, .B, .B, .B, .B]⟩

/-- `e_ident.__post_init__`: resolve class, encoding and OS/ABI strictly. -/
def mkEIdent (c d v o a : Nat) : Except ElfError EIdent :=
  match ELFCLASS.fromValue c with
  | .error e => .error e
  | .ok ci =>
    match ELFDATA.fromValue d with
    | .error e => .error e
    | .ok di =>
      match OSABI.fromValue o with
      | .error e => .error e
      | .ok oi => .ok ⟨ci.toNat, di.toNat, v, oi.toNat, a⟩

/-- `e_ident.from_fd`: read and check the magic, unpack `BBBBB`, construct
(running the resolutions), then skip `EI.NIDENT - EI.PAD + 1` padding bytes. -/
def EIdent.fromStream (host : ByteOrder) (bs : Bytes) : Except ElfError (EIdent × Bytes) :=
  let magic := bs.take 4
  let bs1 := bs.drop 4
  if magic = elfMagic then
    match unpackStream host identFmt bs1 with
    | .error e => .error e
    | .ok (vals, bs2) =>
      match vals with
      | [c, d, v, o, a] =>
        match mkEIdent c d v o a with
        | .error e => .error e
        | .ok ei => .ok (ei, bs2.drop (EI_NIDENT - EI_PAD + 1))
      | _ => .error .structError
  else .error .notAnELF

/-- `e_ident.__bytes__`: magic, the five fields packed as `BBBBB`, then
`EI.NIDENT - EI.PAD + 1` zero bytes of padding. -/
def EIdent.toBytes (e : EIdent) : Bytes :=
  elfMagic ++
    [e.file_class % 256, e.data_encoding % 256, e.file_version % 256,
     e.os_abi % 256, e.abi_version % 256] ++
    List.replicate (EI_NIDENT - EI_PAD + 1) 0

/-- `e_ident.endianess`: the struct byte-order character.  The source tests
`self.data_encoding == ELFDATA.LSB` in both branches, so the big-endian
answer is unreachable; any non-LSB encoding raises `ValueError`. -/
def EIdent.endianess (e : EIdent) : Except ElfError ByteOrder :=
  if e.data_encoding = ELFDATA_LSB.val then .ok .little
  else if e.data_encoding = ELFDATA_LSB.val then .ok .big
  else .error (.unknownEndianess e.data_encoding)

/-- `e_ident.native`: the struct character for native-width addresses. -/
def EIdent.native (e : EIdent) : Except ElfError Tok :=
  if e.file_class = ELFCLASS_32.val then .ok .I
  else if e.file_class = ELFCLASS_64.val then .ok .Q
  else .error (.unknownClass e.file_class)

/-! ## `ELFHeader` -/

structure ELFHeader where
  e_ident : EIdent
  e_type : Nat
  e_machine : Nat
  e_version : Nat
  e_entry : Nat
  e_phoff : Nat
  e_shoff : Nat
  e_flags : Nat
  e_ehsize : Nat
  e_phentsize : Nat
  e_phnum : Nat
  e_shentsize : Nat
  e_shnum : Nat
  e_shstrndx : Nat
deriving DecidableEq, Repr

/-- `ELFHeader._format(e_ident)`: endianness character, `HHI`, three
native-width fields, `IHHHHHH`. -/
def ELFHeader.format (e : EIdent) : Except ElfError Fmt :=
  match e.endianess with
  | .error err => .error err
  | .ok bo =>
    match e.native with
    | .error err => .error err
    | .ok n => .ok ⟨some bo, [.H, .H, .I, n, n, n, .I, .H, .H, .H, .H, .H, .H]⟩

/-- `ELFHeader.__len__`: 52 bytes for the 32-bit class, 64 for the 64-bit
class, `ValueError` otherwise. -/
def headerLen (e : EIdent) : Except ElfError Nat :=
  if e.file_class = ELFCLASS_32.val then .ok 52
  else if e.file_class = ELFCLASS_64.val then .ok 64
  else .error (.unknownClass e.file_class)

/-- `ELFSectionHeader._format(e_ident)`. -/
def ELFSectionHeader.format (e : EIdent) : Except ElfError Fmt :=
  match e.endianess with
  | .error err => .error err
  | .ok bo =>
    match e.native with
    | .error err => .error err
    | .ok n => .ok ⟨some bo, [.I, .I, n, n, n, n, .I, .I, n, n]⟩

/-- `ELFSectionHeader.size(e_ident) = struct.calcsize(_format(e_ident))`. -/
def ELFSectionHeader.size (e : EIdent) : Except ElfError Nat :=
  match ELFSectionHeader.format e with
  | .error err => .error err
  | .ok f => .ok (calcsize f)

/-- `ELFHeader.__post_init__`: strict type and machine resolution, fallback
version resolution, then the `e_ehsize` and `e_shentsize` structural checks
(in that order). -/
def mkELFHeader (e : EIdent)
    (t m v entry phoff shoff flags ehsize phentsize phnum shentsize shnum shstrndx : Nat) :
    Except ElfError ELFHeader :=
  match ET.fromValue t with
  | .error err => .error err
  | .ok ti =>
    match EM.fromValue m with
    | .error err => .error err
    | .ok mi =>
      let vi := (EV.fromValueFallback v).toNat
      match headerLen e with
      | .error err => .error err
      | .ok hl =>
        if ehsize ≠ hl then .error (.invalidEhsize ehsize hl)
        else
          match ELFSectionHeader.size e with
          | .error err => .error err
          | .ok ssz =>
            if shentsize ≠ ssz then .error (.invalidShentsize shentsize ssz)
            else
              .ok ⟨e, ti.toNat, mi.toNat, vi, entry, phoff, shoff, flags,
                   ehsize, phentsize, phnum, shentsize, shnum, shstrndx⟩

/-- `ELFHeader.from_fd`: decode `e_ident`, then unpack the remaining fixed
fields with the class/endianness-dependent format and construct. -/
def ELFHeader.fromStream (host : ByteOrder) (bs : Bytes) : Except ElfError (ELFHeader × Bytes) :=
  match EIdent.fromStream host bs with
  | .error e => .error e
  | .ok (ei, bs1) =>
    match ELFHeader.format ei with
    | .error e => .error e
    | .ok fmt =>
      match unpackStream host fmt bs1 with
      | .error e => .error e
      | .ok (vals, bs2) =>
        match vals with
        | [t, m, v, en, ph, sh, fl, eh, phe, phn, she, shn, shs] =>
          match mkELFHeader ei t m v en ph sh fl eh phe phn she shn shs with
          | .error e => .error e
          | .ok h => .ok (h, bs2)
        | _ => .error .structError

/-- `ELFHeader.__bytes__`: the `e_ident` bytes followed by the thirteen fixed
fields packed with the class/endianness-dependent format. -/
def ELFHeader.toBytes (host : ByteOrder) (h : ELFHeader) : Except ElfError Bytes :=
  match ELFHeader.format h.e_ident with
  | .error e => .error e
  | .ok fmt =>
    .ok (h.e_ident.toBytes ++
      structPack host fmt
        [h.e_type, h.e_machine, h.e_version, h.e_entry, h.e_phoff, h.e_shoff,
         h.e_flags, h.e_ehsize, h.e_phentsize, h.e_phnum, h.e_shentsize,
         h.e_shnum, h.e_shstrndx])

/-! ## `ELFSectionHeader` and `ELFProgramHeader` -/

structure ELFSectionHeader where
  _e_ident : EIdent
  sh_name : Nat
  sh_type : Nat
  sh_flags : Nat
  sh_addr : Nat
  sh_offset : Nat
  sh_size : Nat
  sh_link : Nat
  sh_info : Nat
  sh_addralign : Nat
  sh_entsize : Nat
deriving DecidableEq, Repr

/-- `ELFSectionHeader.__post_init__`: fallback `sh_type` resolution, flag
resolution of `sh_flags` (a flag kind, so it never fails). -/
def mkELFSectionHeader (e : EIdent)
    (name ty flags addr off size link info align entsize : Nat) :
    Except ElfError ELFSectionHeader :=
  let ti := (SHT.fromValueFallback ty).toNat
  match SHF.fromValue flags with
  | .error err => .error err
  | .ok fi => .ok ⟨e, name, ti, fi.toNat, addr, off, size, link, info, align, entsize⟩

/-- `_DeriveSerialization.from_bytes` for section headers. -/
def ELFSectionHeader.fromBytes (host : ByteOrder) (data : Bytes) (e : EIdent) :
    Except ElfError ELFSectionHeader :=
  match ELFSectionHeader.format e with
  | .error err => .error err
  | .ok fmt =>
    match structUnpack host fmt data with
    | .error err => .error err
    | .ok vals =>
      match vals with
      | [a, b, c, d, f, g, h, i, j, k] => mkELFSectionHeader e a b c d f g h i j k
      | _ => .error .structError

structure ELFProgramHeader where
  _e_ident : EIdent
  p_type : Nat
  p_flags : Nat
  p_offset : Nat
  p_vaddr : Nat
  p_paddr : Nat
  p_filesz : Nat
  p_memsz : Nat
  p_align : Nat
deriving DecidableEq, Repr

/-- `ELFProgramHeader.__init__`: checks the argument count, then assigns the
positional fields in the class-dependent wire order (offset-first for the
32-bit class, flags-second for the 64-bit class). -/
def mkELFProgramHeader (e : EIdent) (args : List Nat) : Except ElfError ELFProgramHeader :=
  if args.length ≠ 8 then .error .badArgCount
  else if e.file_class = ELFCLASS_32.val then
    match args with
    | [t, off, va, pa, fs, ms, fl, al] => .ok ⟨e, t, fl, off, va, pa, fs, ms, al⟩
    | _ => .error .badArgCount
  else if e.file_class = ELFCLASS_64.val then
    match args with
    | [t, fl, off, va, pa, fs, ms, al] => .ok ⟨e, t, fl, off, va, pa, fs, ms, al⟩
    | _ => .error .badArgCount
  else .error (.unknownClass e.file_class)

/-- `ELFProgramHeader._format(e_ident)`: note that unlike the other two
record types the returned format string carries no byte-order character, so
it is interpreted in the host byte order. -/
def ELFProgramHeader.format (e : EIdent) : Except ElfError Fmt :=
  if e.file_class = ELFCLASS_32.val then .ok ⟨none, [.I, .I, .I, .I, .I, .I, .I, .I]⟩
  else if e.file_class = ELFCLASS_64.val then .ok ⟨none, [.I, .I, .Q, .Q, .Q, .Q, .Q, .Q]⟩
  else .error (.unknownClass e.file_class)

def ELFProgramHeader.size (e : EIdent) : Except ElfError Nat :=
  match ELFProgramHeader.format e with
  | .error err => .error err
  | .ok f => .ok (calcsize f)

def ELFProgramHeader.fromBytes (host : ByteOrder) (data : Bytes) (e : EIdent) :
    Except ElfError ELFProgramHeader :=
  match ELFProgramHeader.format e with
  | .error err => .error err
  | .ok fmt =>
    match structUnpack host fmt data with
    | .error err => .error err
    | .ok vals => mkELFProgramHeader e vals

/-- The element part of `_DeriveSerialization.multiple_from_bytes`: decode
record `i`, `i+1`, … from `data[i*size:(i+1)*size]`, … -/
def multipleGo (dec : Bytes → Except ElfError α) (data : Bytes) (size : Nat) :
    Nat → Nat → Except ElfError (List α)
  | _, 0 => .ok []
  | i, n + 1 =>
    match dec (pySliceNat data (i * size) ((i + 1) * size)) with
    | .error e => .error e
    | .ok x =>
      match multipleGo dec data size (i + 1) n with
      | .error e => .error e
      | .ok xs => .ok (x :: xs)

/-- `ELFSectionHeader.multiple_from_bytes`. -/
def ELFSectionHeader.multipleFromBytes (host : ByteOrder) (data : Bytes) (count : Nat)
    (e : EIdent) : Except ElfError (List ELFSectionHeader) :=
  match ELFSectionHeader.size e with
  | .error err => .error err
  | .ok size => multipleGo (fun b => ELFSectionHeader.fromBytes host b e) data size 0 count

/-- `ELFProgramHeader.multiple_from_bytes`. -/
def ELFProgramHeader.multipleFromBytes (host : ByteOrder) (data : Bytes) (count : Nat)
    (e : EIdent) : Except ElfError (List ELFProgramHeader) :=
  match ELFProgramHeader.size e with
  | .error err => .error err
  | .ok size => multipleGo (fun b => ELFProgramHeader.fromBytes host b e) data size 0 count

/-! ## The `ELF` container -/

structure ELF where
  header : ELFHeader
  section_headers : List ELFSectionHeader
  program_headers : List ELFProgramHeader
  data : Bytes
deriving DecidableEq, Repr

/-- `ELF.from_fd`: decode the header, read the remaining bytes as the body
(`assert data`), then slice and decode the section-header and program-header
tables at `table offset - len(header)` with Python slice semantics. -/
def ELF.fromStream (host : ByteOrder) (bs : Bytes) : Except ElfError ELF :=
  match ELFHeader.fromStream host bs with
  | .error e => .error e
  | .ok (header, data) =>
    if data.length = 0 then .error .assertionError
    else
      match headerLen header.e_ident with
      | .error e => .error e
      | .ok hl =>
        match ELFSectionHeader.multipleFromBytes host
            (pySlice data ((header.e_shoff : Int) - (hl : Int))
              ((header.e_shoff : Int) - (hl : Int) +
                (header.e_shentsize * header.e_shnum : Nat)))
            header.e_shnum header.e_ident with
        | .error e => .error e
        | .ok shs =>
          match ELFProgramHeader.multipleFromBytes host
              (pySlice data ((header.e_phoff : Int) - (hl : Int))
                ((header.e_phoff : Int) - (hl : Int) +
                  (header.e_phentsize * header.e_phnum : Nat)))
              header.e_phnum header.e_ident with
          | .error e => .error e
          | .ok phs => .ok ⟨header, shs, phs, data⟩

/-- `parse(source)`: decode a whole byte buffer as an `ELF` container. -/
def parse (host : ByteOrder) (buf : Bytes) : Except ElfError ELF :=
  ELF.fromStream host buf

/-- `ELF.__bytes__` / `serialize(container)`: the header bytes followed by the
untouched body (table bytes are not re-derived from the structured entries). -/
def ELF.serialize (host : ByteOrder) (elf : ELF) : Except ElfError Bytes :=
  match ELFHeader.toBytes host elf.header with
  | .error e => .error e
  | .ok hb => .ok (hb ++ elf.data)

/-! ## Concrete inputs used by the claim theorems -/

/-- A 64-bit little-endian identification block (class 2, encoding LSB). -/
def eIdent64LE : EIdent := ⟨2, 1, 0, 0, 0⟩

/-- Program-header record bytes whose first field is 1 in little-endian. -/
def c4Bytes : Bytes := [1, 0, 0, 0] ++ List.replicate 52 0

/-- The minimal valid 64-bit little-endian ELF buffer of the spec's concrete
scenario: a 16-byte identification block (class 2, encoding 1), zero fields
except `e_shoff = 64`, `e_ehsize = 64`, `e_shentsize = 64`, `e_shnum = 1`,
followed by one all-zero 64-byte section-header entry. -/
def c1Buffer : Bytes :=
  [0x7f, 0x45, 0x4c, 0x46, 2, 1, 0, 0, 0] ++ List.replicate 7 0 ++
  [0, 0,  0, 0,  0, 0, 0, 0] ++
  List.replicate 16 0 ++
  [0x40, 0, 0, 0, 0, 0, 0, 0] ++
  [0, 0, 0, 0] ++
  [0x40, 0,  0, 0,  0, 0,  0x40, 0,  1, 0,  0, 0] ++
  List.replicate 64 0

/-- A buffer that parses successfully: header with `e_ehsize = 64`,
`e_shentsize = 64`, zero table counts, and a one-byte body (in the on-disk
shape the parser actually consumes, with 8 padding bytes). -/
def w2Buf : Bytes :=
  [0x7f, 0x45, 0x4c, 0x46, 2, 1, 0, 0, 0] ++ List.replicate 8 0 ++
  ([0, 0,  0, 0,  0, 0, 0, 0] ++ List.replicate 24 0 ++ [0, 0, 0, 0] ++
   [0x40, 0,  0, 0,  0, 0,  0x40, 0,  0, 0,  0, 0]) ++
  [0]

/-- The container `parse .little w2Buf` produces. -/
def w2Elf : ELF :=
  ⟨⟨eIdent64LE, 0, 0, 0, 0, 0, 0, 0, 64, 0, 0, 64, 0, 0⟩, [], [], [0]⟩

/-- A buffer whose declared program-header entry size is 100 (larger than the
56-byte record) with one program header at adjusted offset 0 and an 80-byte
body, so the declared table byte range `[0, 100)` exceeds the body. -/
def c9Buf : Bytes :=
  [0x7f, 0x45, 0x4c, 0x46, 2, 1, 0, 0, 0] ++ List.replicate 8 0 ++
  ([0, 0,  0, 0,  0, 0, 0, 0] ++
   List.replicate 8 0 ++
   [0x40, 0, 0, 0, 0, 0, 0, 0] ++
   List.replicate 8 0 ++
   [0, 0, 0, 0] ++
   [0x40, 0,  100, 0,  1, 0,  0x40, 0,  0, 0,  0, 0]) ++
  List.replicate 80 0

/-- The container `parse .little c9Buf` produces. -/
def c9Elf : ELF :=
  ⟨⟨eIdent64LE, 0, 0, 0, 0, 64, 0, 0, 64, 100, 1, 64, 0, 0⟩, [],
   [⟨eIdent64LE, 0, 0, 0, 0, 0, 0, 0, 0⟩], List.replicate 80 0⟩

/-- A buffer whose section-header table reference (`e_shoff = 200`,
`e_shnum = 1`) lies beyond its 80-byte body. -/
def c9wBuf : Bytes :=
  [0x7f, 0x45, 0x4c, 0x46, 2, 1, 0, 0, 0] ++ List.replicate 8 0 ++
  ([0, 0,  0, 0,  0, 0, 0, 0] ++
   List.replicate 8 0 ++
   List.replicate 8 0 ++
   [200, 0, 0, 0, 0, 0, 0, 0] ++
   [0, 0, 0, 0] ++
   [0x40, 0,  0, 0,  0, 0,  0x40, 0,  1, 0,  0, 0]) ++
  List.replicate 80 0

/-- The header `ELFHeader.fromStream .little c9wBuf` produces. -/
def c9wHdr : ELFHeader := ⟨eIdent64LE, 0, 0, 0, 0, 0, 200, 0, 64, 0, 0, 64, 1, 0⟩

/-- The body that parse retains for `c9wBuf`. -/
def c9wData : Bytes := List.replicate 80 0

/-! ## General lemmas about the symbolic value system -/

theorem fromValue_ok_toNat (k : EnumKind) (v : Nat) (r : Resolved)
    (h : k.fromValue v = .ok r) : r.toNat = v := by
  unfold EnumKind.fromValue at h
  match hc : k.itemCls with
  | .flag =>
    rw [hc] at h
    cases h
    rfl
  | .plain =>
    rw [hc] at h
    match hf : k.items.find? (fun i => i.val == v) with
    | some i =>
      rw [hf] at h
      cases h
      have := List.find?_some hf
      simpa [Resolved.toNat] using this
    | none => rw [hf] at h; cases h

theorem fromValueFallback_toNat (k : EnumKind) (v : Nat) :
    (k.fromValueFallback v).toNat = v := by
  unfold EnumKind.fromValueFallback
  match hf : k.fromValue v with
  | .ok r => simpa [FallbackResult.toNat] using fromValue_ok_toNat k v r hf
  | .error e => rfl

theorem fromValue_flag (k : EnumKind) (h : k.itemCls = .flag) (v : Nat) :
    k.fromValue v = .ok (.flagMatch v k.items) := by
  unfold EnumKind.fromValue
  rw [h]

/-! ## Claim theorems: symbolic resolution (C6, C7, C8, C10) -/

/-- Claim C6: for a plain enumeration kind, strict resolution of a raw value
with no matching table entry fails with the unknown-symbolic-value error
naming the value and the kind, while fallback resolution returns the raw
integer unchanged; when an entry matches, both return that named value. -/
theorem c6_enum_resolution (k : EnumKind) (v : Nat) (hplain : k.itemCls = .plain) :
    ((∀ i ∈ k.items, i.val ≠ v) →
      k.fromValue v = .error (.unknownValue k.name v) ∧
      k.fromValueFallback v = .raw v ∧
      (k.fromValueFallback v).toNat = v) ∧
    (∀ i ∈ k.items, i.val = v →
      ∃ j, j ∈ k.items ∧ j.val = v ∧
        k.fromValue v = .ok (.item j) ∧
        k.fromValueFallback v = .resolved (.item j)) := by
  constructor
  · intro hnone
    have hfind : k.items.find? (fun i => i.val == v) = none := by
      rw [List.find?_eq_none]
      intro x hx
      simpa using hnone x hx
    have hval : k.fromValue v = .error (.unknownValue k.name v) := by
      unfold EnumKind.fromValue
      rw [hplain, hfind]
    refine ⟨hval, ?_, fromValueFallback_toNat k v⟩
    unfold EnumKind.fromValueFallback
    rw [hval]
  · intro i hi hiv
    have hsome : (k.items.find? (fun i => i.val == v)).isSome := by
      rw [List.find?_isSome]
      exact ⟨i, hi, by simp [hiv]⟩
    match hf : k.items.find? (fun i => i.val == v) with
    | none => rw [hf] at hsome; simp at hsome
    | some j =>
      have hj : j.val = v := by simpa using List.find?_some hf
      have hmem : j ∈ k.items := List.mem_of_find?_eq_some hf
      have hval : k.fromValue v = .ok (.item j) := by
        unfold EnumKind.fromValue
        rw [hplain, hf]
      refine ⟨j, hmem, hj, hval, ?_⟩
      unfold EnumKind.fromValueFallback
      rw [hval]

/-- Witness for C6 at the `ET` kind and the unknown raw value 99. -/
theorem c6_enum_resolution_witness :
    ET.itemCls = ItemCls.plain ∧
    (ET.fromValue 99 = .error (.unknownValue "ET" 99) ∧
      ET.fromValueFallback 99 = .raw 99 ∧
      (ET.fromValueFallback 99).toNat = 99) :=
  ⟨rfl, (c6_enum_resolution ET 99 rfl).1 (by decide)⟩

/-- Claim C7 counterexample: resolving the raw value `0x10000000` of the flag
kind `SHF` and comparing it (flag constant on the left, as `_FlagMatch._values`
does) against the multi-bit flag `SHF.MASKPROC = 0xf0000000` yields `true`,
although the flag's bits are not a subset of the raw value, refuting the
bitwise-containment reading. -/
theorem c7_flag_query_counterexample :
    SHF.fromValue 0x10000000 = .ok (.flagMatch 0x10000000 SHF.items) ∧
    flagMatchQuery (.flagMatch 0x10000000 SHF.items) ⟨"SHF.MASKPROC", 0xf0000000⟩ = true ∧
    ¬(0xf0000000 &&& 0x10000000 = 0xf0000000) := by
  refine ⟨rfl, by decide, by decide⟩

/-- Claim C7 as amended: comparing a flags field's flag-match value against a
single known flag constant yields true iff the bitwise intersection of the
flag's bits with the raw value is non-zero (so never when only numeric
equality holds but the intersection is zero); for a single-bit flag this is
exactly the test that that bit is set in the raw value. -/
theorem c7_flag_query_is_intersection :
    (∀ (v : Nat) (fl : List EnumItem) (f : EnumItem),
      flagMatchQuery (.flagMatch v fl) f = true ↔ f.val &&& v ≠ 0) ∧
    (∀ (k v : Nat), flagItemEq (2 ^ k) v = true ↔ v.testBit k) := by
  constructor
  · intro v fl f
    simp [flagMatchQuery, flagItemEq, Resolved.toNat]
  · intro k v
    have h : 2 ^ k &&& v = 2 ^ k * (v.testBit k).toNat := Nat.two_pow_and v k
    simp only [flagItemEq, bne_iff_ne, ne_eq, h]
    cases hb : v.testBit k <;> simp [hb, (Nat.pos_pow_of_pos k (by norm_num : 0 < 2)).ne']

/-- Claim C8 counterexample: the named flag constant `SHF.WRITE` does not hash
as its plain integer 1 — `_EnumFlagItem` overrides `__eq__` without defining
`__hash__`, so the value is unhashable (`hash` raises `TypeError`). -/
theorem c8_flag_hash_counterexample :
    flagItemHash ⟨"SHF.WRITE", 1⟩ = none ∧ flagItemHash ⟨"SHF.WRITE", 1⟩ ≠ some 1 := by
  exact ⟨rfl, by decide⟩

/-- Claim C8 as amended: plain named values compare equal to their underlying
integer and hash as that integer while retaining their symbolic name; named
flag constants with a non-zero value also compare equal to their underlying
integer (via bit intersection), but they are unhashable, because
`_EnumFlagItem` overrides `__eq__` without defining `__hash__`. -/
theorem c8_named_values_as_integers :
    (∀ i : EnumItem, enumItemEqInt i i.val = true ∧ enumItemHash i = some i.val) ∧
    (∀ i : EnumItem, i.val ≠ 0 → flagItemEqInt i i.val = true) ∧
    (∀ i : EnumItem, flagItemHash i = none) := by
  refine ⟨fun i => ⟨by simp [enumItemEqInt], rfl⟩, fun i h => ?_, fun i => rfl⟩
  simp [flagItemEqInt, flagItemEq, Nat.and_self, h]

/-- Witness for C8's amended theorem at `SHF.WRITE` and `ET.REL`. -/
theorem c8_named_values_witness :
    ((1 : Nat) ≠ 0) ∧
    flagItemEqInt ⟨"SHF.WRITE", 1⟩ 1 = true ∧
    enumItemHash ⟨"ET.REL", 1⟩ = some 1 :=
  ⟨by decide, c8_named_values_as_integers.2.1 ⟨"SHF.WRITE", 1⟩ (by decide),
    (c8_named_values_as_integers.1 ⟨"ET.REL", 1⟩).2⟩

/-- Claim C10: flag equality is not symmetric.  Resolving raw value 3 of the
flag kind `SHF`, comparing with the named constant `SHF.ALLOC = 2` on the left
tests bitwise intersection and yields true, while comparing with the
flag-match value on the left is plain integer equality and yields false. -/
theorem c10_flag_eq_asymmetry :
    SHF.fromValue 3 = .ok (.flagMatch 3 SHF.items) ∧
    flagMatchQuery (.flagMatch 3 SHF.items) ⟨"SHF.ALLOC", 2⟩ = true ∧
    flagMatchEqInt (.flagMatch 3 SHF.items) 2 = false := by
  exact ⟨rfl, by decide, by decide⟩

/-! ## Claim theorems: identification block and formats (C3, C4) -/

/-- Claim C3: the `endianess` accessor maps the little-endian encoding to the
little-endian token, but the big-endian branch of the source retests the
little-endian constant, so no identification block ever yields the big-endian
token; the big-endian encoding 2 fails with the unrecognized-endianness
error instead of mapping to the big-endian token. -/
theorem c3_endianess_big_unreachable :
    (∀ e : EIdent, e.endianess ≠ .ok .big) ∧
    EIdent.endianess ⟨2, 1, 0, 0, 0⟩ = .ok .little ∧
    EIdent.endianess ⟨2, 2, 0, 0, 0⟩ = .error (.unknownEndianess 2) := by
  refine ⟨fun e => ?_, by decide, by decide⟩
  unfold EIdent.endianess
  by_cases hc : e.data_encoding = ELFDATA_LSB.val <;> simp [hc]

/-- Claim C4: the file-header and section-header formats carry the declared
byte order, but the program-header format has no byte-order character, so a
program-header record is decoded in the host byte order: the same bytes under
a 64-bit little-endian identification decode differently on a little-endian
and on a big-endian host. -/
theorem c4_program_header_host_order :
    ELFHeader.format eIdent64LE =
      .ok ⟨some .little, [.H, .H, .I, .Q, .Q, .Q, .I, .H, .H, .H, .H, .H, .H]⟩ ∧
    ELFSectionHeader.format eIdent64LE =
      .ok ⟨some .little, [.I, .I, .Q, .Q, .Q, .Q, .I, .I, .Q, .Q]⟩ ∧
    ELFProgramHeader.format eIdent64LE = .ok ⟨none, [.I, .I, .Q, .Q, .Q, .Q, .Q, .Q]⟩ ∧
    ELFProgramHeader.fromBytes .little c4Bytes eIdent64LE ≠
      ELFProgramHeader.fromBytes .big c4Bytes eIdent64LE := by
  exact ⟨rfl, rfl, rfl, by decide⟩

/-! ## Claim theorems: structural size validation and the minimal scenario
(C5, C1) -/

/-- Claim C5: whenever the declared `e_ehsize` differs from the structural
header size for the class (52 for 32-bit, 64 for 64-bit), or the declared
`e_shentsize` differs from the computed section-header record size, header
construction fails with the corresponding structural-mismatch error and never
returns a header. -/
theorem c5_structural_size_validation (e : EIdent)
    (t m v en ph sh fl eh phe phn she shn shst hl ssz : Nat)
    (hhl : headerLen e = .ok hl)
    (hssz : ELFSectionHeader.size e = .ok ssz)
    (ht : ∃ r, ET.fromValue t = .ok r)
    (hm : ∃ r, EM.fromValue m = .ok r)
    (hbad : eh ≠ hl ∨ she ≠ ssz) :
    (hl = 52 ∨ hl = 64) ∧
    (mkELFHeader e t m v en ph sh fl eh phe phn she shn shst =
        .error (.invalidEhsize eh hl) ∨
      mkELFHeader e t m v en ph sh fl eh phe phn she shn shst =
        .error (.invalidShentsize she ssz)) := by
  obtain ⟨r1, h1⟩ := ht
  obtain ⟨r2, h2⟩ := hm
  constructor
  · unfold headerLen at hhl
    by_cases hc1 : e.file_class = ELFCLASS_32.val
    · rw [if_pos hc1] at hhl; cases hhl; exact Or.inl rfl
    · rw [if_neg hc1] at hhl
      by_cases hc2 : e.file_class = ELFCLASS_64.val
      · rw [if_pos hc2] at hhl; cases hhl; exact Or.inr rfl
      · rw [if_neg hc2] at hhl; cases hhl
  · unfold mkELFHeader
    by_cases heq : eh = hl
    · have hne : she ≠ ssz := by
        rcases hbad with hb | hb
        · exact absurd heq hb
        · exact hb
      simp only [h1, h2, hhl, hssz]
      rw [if_neg (not_not_intro heq), if_pos hne]
      exact Or.inr rfl
    · simp only [h1, h2, hhl]
      rw [if_pos heq]
      exact Or.inl rfl

/-- Witness for C5: a 64-bit little-endian identification with declared
header size 52 (wrong for the 64-bit class) is rejected. -/
theorem c5_structural_size_validation_witness :
    headerLen eIdent64LE = .ok 64 ∧
    ELFSectionHeader.size eIdent64LE = .ok 64 ∧
    ((64 = 52 ∨ (64 : Nat) = 64) ∧
      (mkELFHeader eIdent64LE 0 0 0 0 0 0 0 52 0 0 64 0 0 =
          .error (.invalidEhsize 52 64) ∨
        mkELFHeader eIdent64LE 0 0 0 0 0 0 0 52 0 0 64 0 0 =
          .error (.invalidShentsize 64 64))) :=
  ⟨by decide, by decide,
    c5_structural_size_validation eIdent64LE 0 0 0 0 0 0 0 52 0 0 64 0 0 64 64
      (by decide) (by decide) ⟨.item ⟨"ET.NONE", 0⟩, by decide⟩
      ⟨.item ⟨"EM.NONE", 0⟩, by decide⟩ (Or.inl (by decide))⟩

/-- Claim C1: parsing the spec's minimal valid 64-bit little-endian buffer
does not succeed.  The identification decoder consumes
`EI.NIDENT - EI.PAD + 1 = 8` padding bytes where the block only has 7 left,
shifting every header field one byte, so the declared header size reads as 0
and the parse aborts with the invalid-`e_ehsize` error.  Consistently with
this off-by-one, the encoder emits a 17-byte identification block although
its declared length is `EI.NIDENT = 16`. -/
theorem c1_minimal_scenario_fails :
    parse .little c1Buffer = .error (.invalidEhsize 0 64) ∧
    (EIdent.toBytes eIdent64LE).length = 17 ∧ EI_NIDENT = 16 := by
  exact ⟨by decide, by decide, rfl⟩

/-! ## Byte codec lemmas -/

theorem natToBytesLE_length (n v : Nat) : (natToBytesLE n v).length = n := by
  induction n generalizing v with
  | zero => rfl
  | succ n ih => simp [natToBytesLE, ih]

theorem natToBytes_length (bo : ByteOrder) (n v : Nat) : (natToBytes bo n v).length = n := by
  cases bo <;> simp [natToBytes, natToBytesLE_length]

theorem bytesToNatLE_natToBytesLE (n v : Nat) :
    bytesToNatLE (natToBytesLE n v) = v % 256 ^ n := by
  induction n generalizing v with
  | zero => simp [natToBytesLE, bytesToNatLE, Nat.mod_one]
  | succ n ih =>
    rw [pow_succ', Nat.mod_mul]
    simp [natToBytesLE, bytesToNatLE, ih]

theorem bytesToNatLE_lt (bs : Bytes) (h : ∀ x ∈ bs, x < 256) :
    bytesToNatLE bs < 256 ^ bs.length := by
  induction bs with
  | nil => simp [bytesToNatLE]
  | cons b t ih =>
    have hb : b < 256 := h b (by simp)
    have ht : bytesToNatLE t < 256 ^ t.length := ih (fun x hx => h x (by simp [hx]))
    have h1 : b + 256 * bytesToNatLE t < 256 * (bytesToNatLE t + 1) := by omega
    have h2 : 256 * (bytesToNatLE t + 1) ≤ 256 * 256 ^ t.length :=
      Nat.mul_le_mul_left _ (Nat.succ_le_of_lt ht)
    simpa [bytesToNatLE, pow_succ'] using lt_of_lt_of_le h1 h2

theorem bytesToNat_lt (bo : ByteOrder) (bs : Bytes) (h : ∀ x ∈ bs, x < 256) :
    bytesToNat bo bs < 256 ^ bs.length := by
  cases bo with
  | little => exact bytesToNatLE_lt bs h
  | big =>
    have := bytesToNatLE_lt bs.reverse (fun x hx => h x (List.mem_reverse.mp hx))
    simpa [bytesToNat] using this

theorem bytesToNat_natToBytes (bo : ByteOrder) (n v : Nat) :
    bytesToNat bo (natToBytes bo n v) = v % 256 ^ n := by
  cases bo with
  | little => exact bytesToNatLE_natToBytesLE n v
  | big => simpa [bytesToNat, natToBytes] using bytesToNatLE_natToBytesLE n v

theorem bytesToNat_single (bo : ByteOrder) (b : Nat) : bytesToNat bo [b] = b := by
  cases bo <;> simp [bytesToNat, bytesToNatLE]

/-! ## Pack/unpack lemmas -/

theorem unpackGo_length (bo : ByteOrder) (toks : List Tok) (bs : Bytes) :
    (unpackGo bo toks bs).length = toks.length := by
  induction toks generalizing bs with
  | nil => rfl
  | cons t ts ih => simp [unpackGo, ih]

theorem unpackGo_fit (bo : ByteOrder) (toks : List Tok) (bs : Bytes)
    (h : ∀ x ∈ bs, x < 256) :
    List.Forall₂ (fun (t : Tok) (v : Nat) => v < 256 ^ t.size) toks (unpackGo bo toks bs) := by
  induction toks generalizing bs with
  | nil => exact List.Forall₂.nil
  | cons t ts ih =>
    refine List.Forall₂.cons ?_ (ih _ (fun x hx => h x (List.drop_subset _ _ hx)))
    have h1 : bytesToNat bo (bs.take t.size) < 256 ^ (bs.take t.size).length :=
      bytesToNat_lt bo _ (fun x hx => h x (List.take_subset _ _ hx))
    refine lt_of_lt_of_le h1 (Nat.pow_le_pow_right (by norm_num) ?_)
    simp

theorem packGo_length (bo : ByteOrder) (toks : List Tok) (vals : List Nat)
    (h : toks.length = vals.length) :
    (packGo bo toks vals).length = (toks.map Tok.size).sum := by
  induction toks generalizing vals with
  | nil => cases vals <;> simp [packGo]
  | cons t ts ih =>
    cases vals with
    | nil => simp at h
    | cons v vs =>
      simp only [packGo, List.length_append, List.map_cons, List.sum_cons,
        natToBytes_length]
      rw [ih vs (by simpa using h)]

theorem unpackGo_packGo (bo : ByteOrder) (toks : List Tok) (vals : List Nat)
    (hfit : List.Forall₂ (fun (t : Tok) (v : Nat) => v < 256 ^ t.size) toks vals) :
    unpackGo bo toks (packGo bo toks vals) = vals := by
  induction hfit with
  | nil => rfl
  | @cons t v ts vs hv htl ih =>
    simp only [packGo, unpackGo, List.cons.injEq]
    constructor
    · rw [List.take_left' (natToBytes_length bo t.size v), bytesToNat_natToBytes]
      exact Nat.mod_eq_of_lt hv
    · rw [List.drop_left' (natToBytes_length bo t.size v)]
      exact ih

/-! ## Fixed-length list destructuring helpers -/

theorem list_len5 {α} (l : List α) (h : l.length = 5) :
    ∃ a b c d e, l = [a, b, c, d, e] := by
  rcases l with _ | ⟨a, l⟩; · simp at h
  rcases l with _ | ⟨b, l⟩; · simp at h
  rcases l with _ | ⟨c, l⟩; · simp at h
  rcases l with _ | ⟨d, l⟩; · simp at h
  rcases l with _ | ⟨e, l⟩; · simp at h
  rcases l with _ | ⟨x, l⟩
  · exact ⟨a, b, c, d, e, rfl⟩
  · simp at h

theorem list_len8 {α} (l : List α) (h : l.length = 8) :
    ∃ a b c d e f g h', l = [a, b, c, d, e, f, g, h'] := by
  rcases l with _ | ⟨a, l⟩; · simp at h
  rcases l with _ | ⟨b, l⟩; · simp at h
  rcases l with _ | ⟨c, l⟩; · simp at h
  rcases l with _ | ⟨d, l⟩; · simp at h
  rcases l with _ | ⟨e, l⟩; · simp at h
  rcases l with _ | ⟨f, l⟩; · simp at h
  rcases l with _ | ⟨g, l⟩; · simp at h
  rcases l with _ | ⟨h', l⟩; · simp at h
  rcases l with _ | ⟨x, l⟩
  · exact ⟨a, b, c, d, e, f, g, h', rfl⟩
  · simp at h

theorem list_len10 {α} (l : List α) (h : l.length = 10) :
    ∃ a b c d e f g h' i j, l = [a, b, c, d, e, f, g, h', i, j] := by
  rcases l with _ | ⟨a, l⟩; · simp at h
  rcases l with _ | ⟨b, l⟩; · simp at h
  rcases l with _ | ⟨c, l⟩; · simp at h
  rcases l with _ | ⟨d, l⟩; · simp at h
  rcases l with _ | ⟨e, l⟩; · simp at h
  rcases l with _ | ⟨f, l⟩; · simp at h
  rcases l with _ | ⟨g, l⟩; · simp at h
  rcases l with _ | ⟨h', l⟩; · simp at h
  rcases l with _ | ⟨i, l⟩; · simp at h
  rcases l with _ | ⟨j, l⟩; · simp at h
  rcases l with _ | ⟨x, l⟩
  · exact ⟨a, b, c, d, e, f, g, h', i, j, rfl⟩
  · simp at h

theorem list_len13 {α} (l : List α) (h : l.length = 13) :
    ∃ a b c d e f g h' i j k m n, l = [a, b, c, d, e, f, g, h', i, j, k, m, n] := by
  rcases l with _ | ⟨a, l⟩; · simp at h
  rcases l with _ | ⟨b, l⟩; · simp at h
  rcases l with _ | ⟨c, l⟩; · simp at h
  rcases l with _ | ⟨d, l⟩; · simp at h
  rcases l with _ | ⟨e, l⟩; · simp at h
  rcases l with _ | ⟨f, l⟩; · simp at h
  rcases l with _ | ⟨g, l⟩; · simp at h
  rcases l with _ | ⟨h', l⟩; · simp at h
  rcases l with _ | ⟨i, l⟩; · simp at h
  rcases l with _ | ⟨j, l⟩; · simp at h
  rcases l with _ | ⟨k, l⟩; · simp at h
  rcases l with _ | ⟨m, l⟩; · simp at h
  rcases l with _ | ⟨n, l⟩; · simp at h
  rcases l with _ | ⟨x, l⟩
  · exact ⟨a, b, c, d, e, f, g, h', i, j, k, m, n, rfl⟩
  · simp at h

/-! ## Stream unpack and slice lemmas -/

theorem unpackStream_ok_of (host : ByteOrder) (f : Fmt) (bs : Bytes)
    (hle : calcsize f ≤ bs.length) (h0 : calcsize f ≠ 0) :
    unpackStream host f bs =
      .ok (unpackGo (f.effOrder host) f.toks (bs.take (calcsize f)), bs.drop (calcsize f)) := by
  have hlen : (bs.take (calcsize f)).length = calcsize f := by
    simp [List.length_take]; omega
  unfold unpackStream structUnpack
  rw [if_neg (by rw [hlen]; exact h0), if_pos hlen]

theorem unpackStream_ok_inv (host : ByteOrder) (f : Fmt) (bs : Bytes) (vals : List Nat)
    (rest : Bytes) (h : unpackStream host f bs = .ok (vals, rest)) :
    calcsize f ≤ bs.length ∧ calcsize f ≠ 0 ∧
    vals = unpackGo (f.effOrder host) f.toks (bs.take (calcsize f)) ∧
    rest = bs.drop (calcsize f) := by
  unfold unpackStream structUnpack at h
  by_cases h0 : (bs.take (calcsize f)).length = 0
  · rw [if_pos h0] at h; cases h
  · rw [if_neg h0] at h
    by_cases h1 : (bs.take (calcsize f)).length = calcsize f
    · rw [if_pos h1] at h
      simp only [List.length_take] at h0 h1
      simp at h
      exact ⟨by omega, by omega, h.1.symm, h.2.symm⟩
    · rw [if_neg h1] at h
      simp at h

theorem pySlice_natCast (data : Bytes) (a b : Nat) :
    pySlice data (a : Int) (b : Int) = pySliceNat data a b := by
  unfold pySlice pySliceNat pySliceIdx
  rw [if_neg (by omega : ¬((a : Int) < 0)), if_neg (by omega : ¬((b : Int) < 0))]
  have ha : (a : Int).toNat = a := rfl
  have hb : (b : Int).toNat = b := rfl
  rw [ha, hb]
  have hdrop : data.drop (min a data.length) = data.drop a := by
    by_cases h1 : a ≤ data.length
    · rw [min_eq_left h1]
    · rw [min_eq_right (le_of_not_le h1),
        List.drop_eq_nil_of_le (le_refl _),
        List.drop_eq_nil_of_le (le_of_not_le h1)]
  rw [hdrop]
  by_cases h1 : a ≤ data.length
  · by_cases h2 : b ≤ data.length
    · rw [min_eq_left h1, min_eq_left h2]
    · rw [min_eq_left h1, min_eq_right (le_of_not_le h2)]
      rw [List.take_of_length_le (by simp),
        List.take_of_length_le (by simp; omega)]
  · have hnil : data.drop a = [] := List.drop_eq_nil_of_le (le_of_not_le h1)
    rw [hnil]
    simp

theorem pySliceNat_length (data : Bytes) (a b : Nat) :
    (pySliceNat data a b).length = min (b - a) (data.length - a) := by
  simp [pySliceNat]

theorem pySlice_length_le (data : Bytes) (a b : Int) (ha : 0 ≤ a) :
    (pySlice data a b).length ≤ data.length - a.toNat := by
  unfold pySlice pySliceIdx
  rw [if_neg (by omega : ¬(a < 0))]
  simp only [List.length_take, List.length_drop]
  omega

/-! ## Inversion lemmas for the derived accessors and formats -/

theorem endianess_inv (e : EIdent) (bo : ByteOrder) (h : e.endianess = .ok bo) :
    e.data_encoding = 1 ∧ bo = .little := by
  unfold EIdent.endianess at h
  by_cases h1 : e.data_encoding = ELFDATA_LSB.val
  · rw [if_pos h1] at h
    cases h
    exact ⟨h1, rfl⟩
  · rw [if_neg h1, if_neg h1] at h
    cases h

theorem native_inv (e : EIdent) (n : Tok) (h : e.native = .ok n) :
    (e.file_class = 1 ∧ n = .I) ∨ (e.file_class = 2 ∧ n = .Q) := by
  unfold EIdent.native at h
  by_cases h1 : e.file_class = ELFCLASS_32.val
  · rw [if_pos h1] at h
    cases h
    exact Or.inl ⟨h1, rfl⟩
  · rw [if_neg h1] at h
    by_cases h2 : e.file_class = ELFCLASS_64.val
    · rw [if_pos h2] at h
      cases h
      exact Or.inr ⟨h2, rfl⟩
    · rw [if_neg h2] at h
      cases h

theorem headerFormat_inv (e : EIdent) (fmt : Fmt) (h : ELFHeader.format e = .ok fmt) :
    ∃ bo n, e.endianess = .ok bo ∧ e.native = .ok n ∧
      fmt = ⟨some bo, [.H, .H, .I, n, n, n, .I, .H, .H, .H, .H, .H, .H]⟩ := by
  unfold ELFHeader.format at h
  match h1 : e.endianess with
  | .error err => rw [h1] at h; cases h
  | .ok bo =>
    rw [h1] at h
    match h2 : e.native with
    | .error err => rw [h2] at h; cases h
    | .ok n =>
      rw [h2] at h
      cases h
      exact ⟨bo, n, rfl, rfl, rfl⟩

theorem sectionFormat_inv (e : EIdent) (fmt : Fmt) (h : ELFSectionHeader.format e = .ok fmt) :
    ∃ bo n, e.endianess = .ok bo ∧ e.native = .ok n ∧
      fmt = ⟨some bo, [.I, .I, n, n, n, n, .I, .I, n, n]⟩ := by
  unfold ELFSectionHeader.format at h
  match h1 : e.endianess with
  | .error err => rw [h1] at h; cases h
  | .ok bo =>
    rw [h1] at h
    match h2 : e.native with
    | .error err => rw [h2] at h; cases h
    | .ok n =>
      rw [h2] at h
      cases h
      exact ⟨bo, n, rfl, rfl, rfl⟩

theorem programFormat_inv (e : EIdent) (fmt : Fmt) (h : ELFProgramHeader.format e = .ok fmt) :
    (e.file_class = 1 ∧ fmt = ⟨none, [.I, .I, .I, .I, .I, .I, .I, .I]⟩) ∨
    (e.file_class = 2 ∧ fmt = ⟨none, [.I, .I, .Q, .Q, .Q, .Q, .Q, .Q]⟩) := by
  unfold ELFProgramHeader.format at h
  by_cases h1 : e.file_class = ELFCLASS_32.val
  · rw [if_pos h1] at h
    cases h
    exact Or.inl ⟨h1, rfl⟩
  · rw [if_neg h1] at h
    by_cases h2 : e.file_class = ELFCLASS_64.val
    · rw [if_pos h2] at h
      cases h
      exact Or.inr ⟨h2, rfl⟩
    · rw [if_neg h2] at h
      cases h

theorem sectionSize_inv (e : EIdent) (ssz : Nat) (h : ELFSectionHeader.size e = .ok ssz) :
    ∃ fmt, ELFSectionHeader.format e = .ok fmt ∧ calcsize fmt = ssz ∧
      fmt.toks.length = 10 ∧ (ssz = 40 ∨ ssz = 64) := by
  unfold ELFSectionHeader.size at h
  match h1 : ELFSectionHeader.format e with
  | .error err => rw [h1] at h; cases h
  | .ok fmt =>
    rw [h1] at h
    cases h
    obtain ⟨bo, n, _, hn, hfmt⟩ := sectionFormat_inv e fmt h1
    subst hfmt
    rcases native_inv e n hn with ⟨_, hnI⟩ | ⟨_, hnQ⟩
    · subst hnI
      exact ⟨_, rfl, rfl, rfl, Or.inl rfl⟩
    · subst hnQ
      exact ⟨_, rfl, rfl, rfl, Or.inr rfl⟩

theorem programSize_inv (e : EIdent) (psz : Nat) (h : ELFProgramHeader.size e = .ok psz) :
    ∃ fmt, ELFProgramHeader.format e = .ok fmt ∧ calcsize fmt = psz ∧
      fmt.toks.length = 8 ∧ (e.file_class = 1 ∨ e.file_class = 2) ∧
      (psz = 32 ∨ psz = 56) := by
  unfold ELFProgramHeader.size at h
  match h1 : ELFProgramHeader.format e with
  | .error err => rw [h1] at h; cases h
  | .ok fmt =>
    rw [h1] at h
    cases h
    rcases programFormat_inv e fmt h1 with ⟨hc, hfmt⟩ | ⟨hc, hfmt⟩ <;> subst hfmt
    · exact ⟨_, rfl, rfl, rfl, Or.inl hc, Or.inl rfl⟩
    · exact ⟨_, rfl, rfl, rfl, Or.inr hc, Or.inr rfl⟩

/-! ## Record decoder lemmas -/

theorem mkELFSectionHeader_total (e : EIdent)
    (name ty flags addr off size link info align entsize : Nat) :
    ∃ x, mkELFSectionHeader e name ty flags addr off size link info align entsize = .ok x := by
  unfold mkELFSectionHeader
  rw [fromValue_flag SHF rfl]
  exact ⟨_, rfl⟩

theorem sectionFromBytes_short (host : ByteOrder) (b : Bytes) (e : EIdent) (fmt : Fmt)
    (hfmt : ELFSectionHeader.format e = .ok fmt) (hlen : b.length ≠ calcsize fmt) :
    ELFSectionHeader.fromBytes host b e = .error .structError := by
  unfold ELFSectionHeader.fromBytes structUnpack
  simp only [hfmt]
  rw [if_neg hlen]

theorem sectionFromBytes_cases (host : ByteOrder) (b : Bytes) (e : EIdent) (ssz : Nat)
    (hssz : ELFSectionHeader.size e = .ok ssz) :
    (∃ x, ELFSectionHeader.fromBytes host b e = .ok x) ∨
      ELFSectionHeader.fromBytes host b e = .error .structError := by
  obtain ⟨fmt, hfmt, hcs, htoks, _⟩ := sectionSize_inv e ssz hssz
  by_cases hlen : b.length = calcsize fmt
  · left
    unfold ELFSectionHeader.fromBytes structUnpack
    simp only [hfmt]
    rw [if_pos hlen]
    have hv : (unpackGo (fmt.effOrder host) fmt.toks b).length = 10 := by
      rw [unpackGo_length, htoks]
    obtain ⟨a1, a2, a3, a4, a5, a6, a7, a8, a9, a10, hform⟩ :=
      list_len10 (unpackGo (fmt.effOrder host) fmt.toks b) hv
    rw [hform]
    obtain ⟨x, hx⟩ := mkELFSectionHeader_total e a1 a2 a3 a4 a5 a6 a7 a8 a9 a10
    exact ⟨x, hx⟩
  · right
    exact sectionFromBytes_short host b e fmt hfmt hlen

theorem sectionFromBytes_err (host : ByteOrder) (b : Bytes) (e : EIdent) (err : ElfError)
    (ssz : Nat) (hssz : ELFSectionHeader.size e = .ok ssz)
    (h : ELFSectionHeader.fromBytes host b e = .error err) : err = .structError := by
  rcases sectionFromBytes_cases host b e ssz hssz with ⟨x, hx⟩ | hx
  · rw [h] at hx
    cases hx
  · rw [h] at hx
    cases hx
    rfl

theorem mkELFProgramHeader_total (e : EIdent) (args : List Nat)
    (hc : e.file_class = 1 ∨ e.file_class = 2) (hlen : args.length = 8) :
    ∃ x, mkELFProgramHeader e args = .ok x := by
  unfold mkELFProgramHeader
  rw [if_neg (not_not_intro hlen)]
  obtain ⟨a1, a2, a3, a4, a5, a6, a7, a8, hform⟩ := list_len8 args hlen
  subst hform
  rcases hc with hc | hc
  · rw [if_pos (show e.file_class = ELFCLASS_32.val from hc)]
    exact ⟨_, rfl⟩
  · rw [if_neg (show ¬e.file_class = ELFCLASS_32.val by rw [hc]; decide),
      if_pos (show e.file_class = ELFCLASS_64.val from hc)]
    exact ⟨_, rfl⟩

theorem programFromBytes_short (host : ByteOrder) (b : Bytes) (e : EIdent) (fmt : Fmt)
    (hfmt : ELFProgramHeader.format e = .ok fmt) (hlen : b.length ≠ calcsize fmt) :
    ELFProgramHeader.fromBytes host b e = .error .structError := by
  unfold ELFProgramHeader.fromBytes structUnpack
  simp only [hfmt]
  rw [if_neg hlen]

theorem programFromBytes_cases (host : ByteOrder) (b : Bytes) (e : EIdent) (psz : Nat)
    (hpsz : ELFProgramHeader.size e = .ok psz) :
    (∃ x, ELFProgramHeader.fromBytes host b e = .ok x) ∨
      ELFProgramHeader.fromBytes host b e = .error .structError := by
  obtain ⟨fmt, hfmt, hcs, htoks, hc, _⟩ := programSize_inv e psz hpsz
  by_cases hlen : b.length = calcsize fmt
  · left
    unfold ELFProgramHeader.fromBytes structUnpack
    simp only [hfmt]
    rw [if_pos hlen]
    have hv : (unpackGo (fmt.effOrder host) fmt.toks b).length = 8 := by
      rw [unpackGo_length, htoks]
    obtain ⟨x, hx⟩ := mkELFProgramHeader_total e _ hc hv
    exact ⟨x, hx⟩
  · right
    exact programFromBytes_short host b e fmt hfmt hlen

theorem programFromBytes_err (host : ByteOrder) (b : Bytes) (e : EIdent) (err : ElfError)
    (psz : Nat) (hpsz : ELFProgramHeader.size e = .ok psz)
    (h : ELFProgramHeader.fromBytes host b e = .error err) : err = .structError := by
  rcases programFromBytes_cases host b e psz hpsz with ⟨x, hx⟩ | hx
  · rw [h] at hx
    cases hx
  · rw [h] at hx
    cases hx
    rfl

/-! ## Table decode (`multiple_from_bytes`) lemmas -/

theorem multipleGo_err {α} (dec : Bytes → Except ElfError α) (data : Bytes) (size : Nat)
    (herr : ∀ b err, dec b = .error err → err = .structError) :
    ∀ n i err, multipleGo dec data size i n = .error err → err = .structError := by
  intro n
  induction n with
  | zero =>
    intro i err h
    simp [multipleGo] at h
  | succ m ih =>
    intro i err h
    match hdec : dec (pySliceNat data (i * size) ((i + 1) * size)) with
    | .error e2 =>
      simp only [multipleGo, hdec] at h
      cases h
      exact herr _ _ hdec
    | .ok x =>
      simp only [multipleGo, hdec] at h
      match hrec : multipleGo dec data size (i + 1) m with
      | .error e2 =>
        simp only [hrec] at h
        cases h
        exact ih (i + 1) _ hrec
      | .ok xs =>
        simp only [hrec] at h
        cases h

theorem multipleGo_short {α} (dec : Bytes → Except ElfError α) (data : Bytes) (size : Nat)
    (hsz : 0 < size)
    (hshort : ∀ b : Bytes, b.length ≠ size → dec b = .error .structError)
    (herr : ∀ b err, dec b = .error err → err = .structError) :
    ∀ n i, 1 ≤ n → data.length < size * (i + n) →
      multipleGo dec data size i n = .error .structError := by
  intro n
  induction n with
  | zero =>
    intro i h1 _
    exact absurd h1 (by omega)
  | succ m ih =>
    intro i _ hlen
    by_cases hc : data.length < size * (i + 1)
    · have heq1 : size * (i + 1) = i * size + size := by ring
      have hsl : (pySliceNat data (i * size) ((i + 1) * size)).length ≠ size := by
        rw [pySliceNat_length]
        have heq2 : (i + 1) * size = i * size + size := by ring
        omega
      have hdec := hshort _ hsl
      simp only [multipleGo, hdec]
    · have hm : 1 ≤ m := by
        have hle : size * (i + 1) ≤ data.length := Nat.le_of_not_lt hc
        have h2 : size * (i + 1) < size * (i + (m + 1)) := lt_of_le_of_lt hle hlen
        have h3 : i + 1 < i + (m + 1) := Nat.lt_of_mul_lt_mul_left h2
        omega
      match hdec : dec (pySliceNat data (i * size) ((i + 1) * size)) with
      | .error e2 =>
        have he := herr _ _ hdec
        subst he
        simp only [multipleGo, hdec]
      | .ok x =>
        have hrec := ih (i + 1) hm (by rw [show i + 1 + m = i + (m + 1) by omega]; exact hlen)
        simp only [multipleGo, hdec, hrec]

theorem sectionsMultiple_short (host : ByteOrder) (data : Bytes) (num : Nat) (e : EIdent)
    (ssz : Nat) (hssz : ELFSectionHeader.size e = .ok ssz) (hnum : 1 ≤ num)
    (hlen : data.length < ssz * num) :
    ELFSectionHeader.multipleFromBytes host data num e = .error .structError := by
  obtain ⟨fmt, hfmt, hcs, htoks, hvals⟩ := sectionSize_inv e ssz hssz
  unfold ELFSectionHeader.multipleFromBytes
  simp only [hssz]
  refine multipleGo_short _ data ssz (by omega) ?_ ?_ num 0 hnum (by simpa using hlen)
  · intro b hb
    exact sectionFromBytes_short host b e fmt hfmt (by omega)
  · intro b err h
    exact sectionFromBytes_err host b e err ssz hssz h

theorem sectionsMultiple_err (host : ByteOrder) (data : Bytes) (num : Nat) (e : EIdent)
    (ssz : Nat) (hssz : ELFSectionHeader.size e = .ok ssz) (err : ElfError)
    (h : ELFSectionHeader.multipleFromBytes host data num e = .error err) :
    err = .structError := by
  unfold ELFSectionHeader.multipleFromBytes at h
  simp only [hssz] at h
  exact multipleGo_err _ data ssz
    (fun b err2 h2 => sectionFromBytes_err host b e err2 ssz hssz h2) num 0 err h

theorem programsMultiple_short (host : ByteOrder) (data : Bytes) (num : Nat) (e : EIdent)
    (psz : Nat) (hpsz : ELFProgramHeader.size e = .ok psz) (hnum : 1 ≤ num)
    (hlen : data.length < psz * num) :
    ELFProgramHeader.multipleFromBytes host data num e = .error .structError := by
  obtain ⟨fmt, hfmt, hcs, htoks, hc, hvals⟩ := programSize_inv e psz hpsz
  unfold ELFProgramHeader.multipleFromBytes
  simp only [hpsz]
  refine multipleGo_short _ data psz (by omega) ?_ ?_ num 0 hnum (by simpa using hlen)
  · intro b hb
    exact programFromBytes_short host b e fmt hfmt (by omega)
  · intro b err h
    exact programFromBytes_err host b e err psz hpsz h

theorem programsMultiple_err (host : ByteOrder) (data : Bytes) (num : Nat) (e : EIdent)
    (psz : Nat) (hpsz : ELFProgramHeader.size e = .ok psz) (err : ElfError)
    (h : ELFProgramHeader.multipleFromBytes host data num e = .error err) :
    err = .structError := by
  unfold ELFProgramHeader.multipleFromBytes at h
  simp only [hpsz] at h
  exact multipleGo_err _ data psz
    (fun b err2 h2 => programFromBytes_err host b e err2 psz hpsz h2) num 0 err h

/-! ## Claim theorems: out-of-range table references (C9) -/

/-- Claim C9 counterexample: for `c9Buf` the program-header table byte range
computed from the declared entry size (offset 0 adjusted, extended by
`e_phnum * e_phentsize = 100` bytes) exceeds the 80-byte body, yet the parse
succeeds, because Python slicing clamps the range and only the 56-byte record
is decoded. -/
theorem c9_out_of_range_counterexample :
    parse .little c9Buf = .ok c9Elf ∧
    headerLen c9Elf.header.e_ident = .ok 64 ∧
    1 ≤ c9Elf.header.e_phnum ∧ 64 ≤ c9Elf.header.e_phoff ∧
    c9Elf.data.length <
      (c9Elf.header.e_phoff - 64) + c9Elf.header.e_phentsize * c9Elf.header.e_phnum := by
  exact ⟨by decide, by decide, by decide, by decide, by decide⟩

/-- Claim C9 as amended: if, for at least one record (`count ≥ 1`), the table
offset adjusted by the header length is non-negative and the range extended by
`count` times the record size goes past the end of the retained body — for the
section-header table or for the program-header table — the parse fails; the
failure surfaces as the struct unpack error raised on the short record slice.
(The declared program-header entry size does not bound what is decoded, and a
negative adjusted offset wraps under Python slicing, so those ranges are
excluded.) -/
theorem c9_out_of_range_amended (host : ByteOrder) (buf : Bytes) (hh : ELFHeader)
    (data : Bytes) (hl ssz psz : Nat)
    (hhdr : ELFHeader.fromStream host buf = .ok (hh, data))
    (hne : data.length ≠ 0)
    (hhl : headerLen hh.e_ident = .ok hl)
    (hssz : ELFSectionHeader.size hh.e_ident = .ok ssz)
    (hpsz : ELFProgramHeader.size hh.e_ident = .ok psz)
    (hout : (1 ≤ hh.e_shnum ∧ hl ≤ hh.e_shoff ∧
              data.length < (hh.e_shoff - hl) + ssz * hh.e_shnum) ∨
            (1 ≤ hh.e_phnum ∧ hl ≤ hh.e_phoff ∧
              data.length < (hh.e_phoff - hl) + psz * hh.e_phnum)) :
    parse host buf = .error .structError := by
  unfold parse ELF.fromStream
  simp only [hhdr]
  rw [if_neg hne]
  simp only [hhl]
  rcases hout with ⟨hn, hge, hlt⟩ | ⟨hn, hge, hlt⟩
  · obtain ⟨_, _, _, _, hs⟩ := sectionSize_inv hh.e_ident ssz hssz
    have hsszpos : 0 < ssz := by rcases hs with h | h <;> omega
    have hpos : 0 < ssz * hh.e_shnum := Nat.mul_pos hsszpos (by omega)
    have hslice : (pySlice data ((hh.e_shoff : Int) - (hl : Int))
        ((hh.e_shoff : Int) - (hl : Int) +
          (hh.e_shentsize * hh.e_shnum : Nat))).length < ssz * hh.e_shnum := by
      have hb := pySlice_length_le data ((hh.e_shoff : Int) - (hl : Int))
        ((hh.e_shoff : Int) - (hl : Int) + (hh.e_shentsize * hh.e_shnum : Nat))
        (by omega)
      have htn : ((hh.e_shoff : Int) - (hl : Int)).toNat = hh.e_shoff - hl :=
        Int.toNat_sub _ _
      omega
    rw [sectionsMultiple_short host _ hh.e_shnum hh.e_ident ssz hssz hn hslice]
  · rcases hsec : ELFSectionHeader.multipleFromBytes host
        (pySlice data ((hh.e_shoff : Int) - (hl : Int))
          ((hh.e_shoff : Int) - (hl : Int) + (hh.e_shentsize * hh.e_shnum : Nat)))
        hh.e_shnum hh.e_ident with err | shs
    · have herr := sectionsMultiple_err host _ hh.e_shnum hh.e_ident ssz hssz err hsec
      subst herr
      simp only [hsec]
    · simp only [hsec]
      obtain ⟨_, _, _, _, _, hs⟩ := programSize_inv hh.e_ident psz hpsz
      have hpszpos : 0 < psz := by rcases hs with h | h <;> omega
      have hpos : 0 < psz * hh.e_phnum := Nat.mul_pos hpszpos (by omega)
      have hslice : (pySlice data ((hh.e_phoff : Int) - (hl : Int))
          ((hh.e_phoff : Int) - (hl : Int) +
            (hh.e_phentsize * hh.e_phnum : Nat))).length < psz * hh.e_phnum := by
        have hb := pySlice_length_le data ((hh.e_phoff : Int) - (hl : Int))
          ((hh.e_phoff : Int) - (hl : Int) + (hh.e_phentsize * hh.e_phnum : Nat))
          (by omega)
        have htn : ((hh.e_phoff : Int) - (hl : Int)).toNat = hh.e_phoff - hl :=
          Int.toNat_sub _ _
        omega
      rw [programsMultiple_short host _ hh.e_phnum hh.e_ident psz hpsz hn hslice]

/-- Witness for C9's amended theorem at `c9wBuf`, whose section-header table
reference (`e_shoff = 200`, one 64-byte entry, 80-byte body) is out of
range. -/
theorem c9_out_of_range_witness :
    (ELFHeader.fromStream .little c9wBuf = .ok (c9wHdr, c9wData)) ∧
    c9wData.length ≠ 0 ∧
    parse .little c9wBuf = .error .structError :=
  ⟨by decide, by decide,
    c9_out_of_range_amended .little c9wBuf c9wHdr c9wData 64 64 56 (by decide) (by decide)
      (by decide) (by decide) (by decide)
      (Or.inl ⟨by decide, by decide, by decide⟩)⟩

/-! ## Identification block inversion and re-encoding -/

theorem mkEIdent_ok (c d v o a : Nat) (e : EIdent) (h : mkEIdent c d v o a = .ok e) :
    e = ⟨c, d, v, o, a⟩ := by
  unfold mkEIdent at h
  match h1 : ELFCLASS.fromValue c with
  | .error err => rw [h1] at h; cases h
  | .ok ci =>
    rw [h1] at h
    match h2 : ELFDATA.fromValue d with
    | .error err => rw [h2] at h; cases h
    | .ok di =>
      rw [h2] at h
      match h3 : OSABI.fromValue o with
      | .error err => rw [h3] at h; cases h
      | .ok oi =>
        rw [h3] at h
        cases h
        simp [EIdent.mk.injEq, fromValue_ok_toNat _ _ _ h1,
          fromValue_ok_toNat _ _ _ h2, fromValue_ok_toNat _ _ _ h3]

theorem unpackGo_fiveB (bo : ByteOrder) (c d v o a : Nat) :
    unpackGo bo [.B, .B, .B, .B, .B] [c, d, v, o, a] = [c, d, v, o, a] := by
  simp [unpackGo, Tok.size, bytesToNat_single]

theorem eIdent_fromStream_inv (host : ByteOrder) (bs : Bytes) (e : EIdent) (rest : Bytes)
    (h : EIdent.fromStream host bs = .ok (e, rest)) :
    mkEIdent e.file_class e.data_encoding e.file_version e.os_abi e.abi_version = .ok e ∧
    ((∀ x ∈ bs, x < 256) →
      e.file_class < 256 ∧ e.data_encoding < 256 ∧ e.file_version < 256 ∧
      e.os_abi < 256 ∧ e.abi_version < 256) ∧
    rest = bs.drop 17 ∧ 9 ≤ bs.length := by
  unfold EIdent.fromStream at h
  by_cases hm : bs.take 4 = elfMagic
  · rw [if_pos hm] at h
    match hu : unpackStream host identFmt (bs.drop 4) with
    | .error err => rw [hu] at h; cases h
    | .ok (vals, bs2) =>
      simp only [hu] at h
      obtain ⟨hle, hnz, hvals, hrest⟩ := unpackStream_ok_inv host identFmt (bs.drop 4) vals bs2 hu
      have hlen5 : vals.length = 5 := by
        rw [hvals, unpackGo_length]
        rfl
      obtain ⟨c, d, v, o, a, hform⟩ := list_len5 vals hlen5
      subst hform
      have h' : (match mkEIdent c d v o a with
          | .error err => (.error err : Except ElfError (EIdent × Bytes))
          | .ok ei => .ok (ei, bs2.drop (EI_NIDENT - EI_PAD + 1))) = .ok (e, rest) := h
      clear h
      match hmk : mkEIdent c d v o a with
      | .error err => rw [hmk] at h'; cases h'
      | .ok ei =>
        rw [hmk] at h'
        cases h'
        have heq := mkEIdent_ok c d v o a _ hmk
        subst heq
        refine ⟨hmk, ?_, ?_, ?_⟩
        · intro hb
          have hfit := unpackGo_fit (identFmt.effOrder host) identFmt.toks
            ((bs.drop 4).take (calcsize identFmt))
            (fun x hx => hb x (List.drop_subset _ _ (List.take_subset _ _ hx)))
          rw [← hvals] at hfit
          have htoks : identFmt.toks = [.B, .B, .B, .B, .B] := rfl
          rw [htoks] at hfit
          rcases hfit with _ | ⟨hb1, hfit⟩
          rcases hfit with _ | ⟨hb2, hfit⟩
          rcases hfit with _ | ⟨hb3, hfit⟩
          rcases hfit with _ | ⟨hb4, hfit⟩
          rcases hfit with _ | ⟨hb5, hfit⟩
          exact ⟨by simpa [Tok.size] using hb1, by simpa [Tok.size] using hb2,
            by simpa [Tok.size] using hb3, by simpa [Tok.size] using hb4,
            by simpa [Tok.size] using hb5⟩
        · rw [hrest]
          have hcs : calcsize identFmt = 5 := rfl
          rw [hcs]
          have hpad : EI_NIDENT - EI_PAD + 1 = 8 := rfl
          rw [hpad]
          simp [List.drop_drop]
        · have hm4 : (bs.take 4).length = 4 := by rw [hm]; rfl
          simp only [List.length_take] at hm4
          simp only [List.length_drop] at hle
          have hcs : calcsize identFmt = 5 := rfl
          rw [hcs] at hle
          omega
  · rw [if_neg hm] at h
    cases h

theorem eIdent_fromStream_encode (host : ByteOrder) (e : EIdent) (tail : Bytes)
    (hres : mkEIdent e.file_class e.data_encoding e.file_version e.os_abi e.abi_version = .ok e)
    (hc1 : e.file_class < 256) (hc2 : e.data_encoding < 256) (hc3 : e.file_version < 256)
    (hc4 : e.os_abi < 256) (hc5 : e.abi_version < 256) :
    EIdent.fromStream host (e.toBytes ++ tail) = .ok (e, tail) := by
  obtain ⟨c, d, v, o, a⟩ := e
  have hm1 : c % 256 = c := Nat.mod_eq_of_lt hc1
  have hm2 : d % 256 = d := Nat.mod_eq_of_lt hc2
  have hm3 : v % 256 = v := Nat.mod_eq_of_lt hc3
  have hm4 : o % 256 = o := Nat.mod_eq_of_lt hc4
  have hm5 : a % 256 = a := Nat.mod_eq_of_lt hc5
  have hshape : (EIdent.mk c d v o a).toBytes ++ tail =
      elfMagic ++ ([c, d, v, o, a] ++ (List.replicate 8 0 ++ tail)) := by
    unfold EIdent.toBytes
    rw [hm1, hm2, hm3, hm4, hm5, show EI_NIDENT - EI_PAD + 1 = 8 from rfl]
    simp [List.append_assoc]
  rw [hshape]
  unfold EIdent.fromStream
  rw [List.take_left' (show elfMagic.length = 4 from rfl),
    List.drop_left' (show elfMagic.length = 4 from rfl), if_pos rfl]
  have hu : unpackStream host identFmt ([c, d, v, o, a] ++ (List.replicate 8 0 ++ tail)) =
      .ok ([c, d, v, o, a], List.replicate 8 0 ++ tail) := by
    rw [unpackStream_ok_of host identFmt _ (by simp [calcsize, identFmt, Tok.size])
      (by decide)]
    rw [show calcsize identFmt = 5 from rfl,
      List.take_left' (show ([c, d, v, o, a] : Bytes).length = 5 from rfl),
      List.drop_left' (show ([c, d, v, o, a] : Bytes).length = 5 from rfl)]
    rw [show identFmt.toks = [.B, .B, .B, .B, .B] from rfl, unpackGo_fiveB]
  simp only [hu]
  simp only [hres]
  rw [show EI_NIDENT - EI_PAD + 1 = 8 from rfl,
    List.drop_left' (show (List.replicate 8 (0 : Nat)).length = 8 from rfl)]

/-! ## File header inversion and re-encoding -/

theorem mkELFHeader_ok (e : EIdent)
    (t m v en ph sh fl eh phe phn she shn shst : Nat) (h : ELFHeader)
    (hmk : mkELFHeader e t m v en ph sh fl eh phe phn she shn shst = .ok h) :
    h = ⟨e, t, m, v, en, ph, sh, fl, eh, phe, phn, she, shn, shst⟩ := by
  unfold mkELFHeader at hmk
  match h1 : ET.fromValue t with
  | .error err => rw [h1] at hmk; cases hmk
  | .ok ti =>
    simp only [h1] at hmk
    match h2 : EM.fromValue m with
    | .error err => rw [h2] at hmk; cases hmk
    | .ok mi =>
      simp only [h2] at hmk
      match h3 : headerLen e with
      | .error err => rw [h3] at hmk; cases hmk
      | .ok hl =>
        simp only [h3] at hmk
        by_cases h4 : eh ≠ hl
        · rw [if_pos h4] at hmk; cases hmk
        · rw [if_neg h4] at hmk
          match h5 : ELFSectionHeader.size e with
          | .error err => rw [h5] at hmk; cases hmk
          | .ok ssz =>
            simp only [h5] at hmk
            by_cases h6 : she ≠ ssz
            · rw [if_pos h6] at hmk; cases hmk
            · rw [if_neg h6] at hmk
              cases hmk
              simp [ELFHeader.mk.injEq, fromValue_ok_toNat _ _ _ h1,
                fromValue_ok_toNat _ _ _ h2, fromValueFallback_toNat EV v]

theorem header_fromStream_inv (host : ByteOrder) (bs : Bytes) (hh : ELFHeader) (rest : Bytes)
    (h : ELFHeader.fromStream host bs = .ok (hh, rest)) :
    ∃ fmt,
      EIdent.fromStream host bs = .ok (hh.e_ident, bs.drop 17) ∧
      ELFHeader.format hh.e_ident = .ok fmt ∧
      unpackStream host fmt (bs.drop 17) =
        .ok ([hh.e_type, hh.e_machine, hh.e_version, hh.e_entry, hh.e_phoff, hh.e_shoff,
              hh.e_flags, hh.e_ehsize, hh.e_phentsize, hh.e_phnum, hh.e_shentsize,
              hh.e_shnum, hh.e_shstrndx], rest) ∧
      mkELFHeader hh.e_ident hh.e_type hh.e_machine hh.e_version hh.e_entry hh.e_phoff
        hh.e_shoff hh.e_flags hh.e_ehsize hh.e_phentsize hh.e_phnum hh.e_shentsize
        hh.e_shnum hh.e_shstrndx = .ok hh ∧
      9 ≤ bs.length := by
  unfold ELFHeader.fromStream at h
  match h1 : EIdent.fromStream host bs with
  | .error err => rw [h1] at h; cases h
  | .ok (ei, bs1) =>
    simp only [h1] at h
    obtain ⟨hmkei, hbnd, hrest1, hblen⟩ := eIdent_fromStream_inv host bs ei bs1 h1
    match h2 : ELFHeader.format ei with
    | .error err => rw [h2] at h; cases h
    | .ok fmt =>
      simp only [h2] at h
      match h3 : unpackStream host fmt bs1 with
      | .error err => rw [h3] at h; cases h
      | .ok (vals, bs2) =>
        simp only [h3] at h
        have htoks : fmt.toks.length = 13 := by
          obtain ⟨bo, n, _, _, hfmt⟩ := headerFormat_inv ei fmt h2
          subst hfmt
          rfl
        obtain ⟨hle, hnz, hvals, hrest2⟩ := unpackStream_ok_inv host fmt bs1 vals bs2 h3
        have hlen13 : vals.length = 13 := by rw [hvals, unpackGo_length, htoks]
        obtain ⟨a1, a2, a3, a4, a5, a6, a7, a8, a9, a10, a11, a12, a13, hform⟩ :=
          list_len13 vals hlen13
        subst hform
        have h' : (match mkELFHeader ei a1 a2 a3 a4 a5 a6 a7 a8 a9 a10 a11 a12 a13 with
            | .error err => (.error err : Except ElfError (ELFHeader × Bytes))
            | .ok hdr => .ok (hdr, bs2)) = .ok (hh, rest) := h
        clear h
        match hmk : mkELFHeader ei a1 a2 a3 a4 a5 a6 a7 a8 a9 a10 a11 a12 a13 with
        | .error err => rw [hmk] at h'; cases h'
        | .ok hdr =>
          rw [hmk] at h'
          cases h'
          have heq := mkELFHeader_ok ei a1 a2 a3 a4 a5 a6 a7 a8 a9 a10 a11 a12 a13 _ hmk
          subst heq
          refine ⟨fmt, ?_, h2, ?_, hmk, hblen⟩
          · rw [← hrest1]
          · rw [← hrest1]
            exact h3

theorem header_roundtrip (host : ByteOrder) (bs : Bytes) (hh : ELFHeader) (rest tail : Bytes)
    (hb : ∀ x ∈ bs, x < 256)
    (h : ELFHeader.fromStream host bs = .ok (hh, rest)) :
    ∃ hbs, ELFHeader.toBytes host hh = .ok hbs ∧
      ELFHeader.fromStream host (hbs ++ tail) = .ok (hh, tail) ∧
      bs.length = hbs.length + rest.length := by
  obtain ⟨fmt, hei, hfmt, hus, hmk, hblen⟩ := header_fromStream_inv host bs hh rest h
  obtain ⟨hle, hnz, hvals, hrest⟩ := unpackStream_ok_inv host fmt (bs.drop 17) _ rest hus
  obtain ⟨hmkei, hbnd, _, _⟩ := eIdent_fromStream_inv host bs hh.e_ident (bs.drop 17) hei
  obtain ⟨hc1, hc2, hc3, hc4, hc5⟩ := hbnd hb
  have htoks : fmt.toks.length = 13 := by
    obtain ⟨bo, n, _, _, hf⟩ := headerFormat_inv hh.e_ident fmt hfmt
    subst hf
    rfl
  set flds : List Nat := [hh.e_type, hh.e_machine, hh.e_version, hh.e_entry, hh.e_phoff,
    hh.e_shoff, hh.e_flags, hh.e_ehsize, hh.e_phentsize, hh.e_phnum, hh.e_shentsize,
    hh.e_shnum, hh.e_shstrndx] with hflds
  have hflen : flds.length = 13 := by rw [hflds]; rfl
  have hfit : List.Forall₂ (fun (t : Tok) (v : Nat) => v < 256 ^ t.size) fmt.toks flds := by
    rw [hvals]
    exact unpackGo_fit _ _ _
      (fun x hx => hb x (List.drop_subset _ _ (List.take_subset _ _ hx)))
  have hpacklen : (structPack host fmt flds).length = calcsize fmt := by
    unfold structPack
    rw [packGo_length _ _ _ (by rw [htoks, hflen])]
    rfl
  have htblen : hh.e_ident.toBytes.length = 17 := by
    simp [EIdent.toBytes, EI_NIDENT, EI_PAD, elfMagic]
  have htb : ELFHeader.toBytes host hh = .ok (hh.e_ident.toBytes ++ structPack host fmt flds) := by
    unfold ELFHeader.toBytes
    simp only [hfmt]
  refine ⟨hh.e_ident.toBytes ++ structPack host fmt flds, htb, ?_, ?_⟩
  · have hee := eIdent_fromStream_encode host hh.e_ident (structPack host fmt flds ++ tail)
      hmkei hc1 hc2 hc3 hc4 hc5
    unfold ELFHeader.fromStream
    rw [List.append_assoc]
    simp only [hee]
    simp only [hfmt]
    have hu2 : unpackStream host fmt (structPack host fmt flds ++ tail) = .ok (flds, tail) := by
      rw [unpackStream_ok_of host fmt _ (by rw [List.length_append, hpacklen]; omega) hnz]
      rw [List.take_left' hpacklen, List.drop_left' hpacklen]
      unfold structPack
      rw [unpackGo_packGo _ _ _ hfit]
    simp only [hu2]
    simp only [hmk]
  · rw [List.length_append, htblen, hpacklen]
    have hrl : rest.length = bs.length - 17 - calcsize fmt := by
      rw [hrest]
      simp only [List.length_drop]
    simp only [List.length_drop] at hle
    omega

/-! ## Claim theorems: round trip (C2) -/

/-- Claim C2: for every container obtained by a successful parse of a byte
buffer, serializing it succeeds and decoding the produced bytes yields the
same container, field for field; the output keeps the input's length (the
identification padding is re-emitted with its length preserved, zero-filled,
so its content need not match the input). -/
theorem c2_parse_serialize_roundtrip (host : ByteOrder) (buf : Bytes) (c : ELF)
    (hb : ∀ x ∈ buf, x < 256) (h : parse host buf = .ok c) :
    ∃ out, ELF.serialize host c = .ok out ∧ parse host out = .ok c ∧
      out.length = buf.length := by
  unfold parse ELF.fromStream at h
  match h1 : ELFHeader.fromStream host buf with
  | .error err => rw [h1] at h; cases h
  | .ok (hh, data) =>
    simp only [h1] at h
    by_cases hne : data.length = 0
    · rw [if_pos hne] at h
      cases h
    · rw [if_neg hne] at h
      match h2 : headerLen hh.e_ident with
      | .error err => rw [h2] at h; cases h
      | .ok hl =>
        simp only [h2] at h
        match h3 : ELFSectionHeader.multipleFromBytes host
            (pySlice data ((hh.e_shoff : Int) - (hl : Int))
              ((hh.e_shoff : Int) - (hl : Int) + (hh.e_shentsize * hh.e_shnum : Nat)))
            hh.e_shnum hh.e_ident with
        | .error err => rw [h3] at h; cases h
        | .ok shs =>
          simp only [h3] at h
          match h4 : ELFProgramHeader.multipleFromBytes host
              (pySlice data ((hh.e_phoff : Int) - (hl : Int))
                ((hh.e_phoff : Int) - (hl : Int) + (hh.e_phentsize * hh.e_phnum : Nat)))
              hh.e_phnum hh.e_ident with
          | .error err => rw [h4] at h; cases h
          | .ok phs =>
            rw [h4] at h
            cases h
            obtain ⟨hbs, htb, hre, hlen⟩ := header_roundtrip host buf hh data data hb h1
            refine ⟨hbs ++ data, ?_, ?_, ?_⟩
            · unfold ELF.serialize
              simp only [htb]
            · unfold parse ELF.fromStream
              simp only [hre]
              rw [if_neg hne]
              simp only [h2, h3, h4]
            · rw [List.length_append, hlen]

/-- Witness for C2 at the concrete buffer `w2Buf`, which parses to `w2Elf`. -/
theorem c2_parse_serialize_roundtrip_witness :
    (∀ x ∈ w2Buf, x < 256) ∧ parse .little w2Buf = .ok w2Elf ∧
    (∃ out, ELF.serialize .little w2Elf = .ok out ∧ parse .little out = .ok w2Elf ∧
      out.length = w2Buf.length) :=
  ⟨by decide, by decide,
    c2_parse_serialize_roundtrip .little w2Buf w2Elf (by decide) (by decide)⟩
